import Mathlib

/-!
Verification development for the smooth-vibes repository: a shallow embedding
of the git wrapper (`src/git/git.go`), the configuration loader
(`src/config/config.go`), the save/review workflow (`src/ui/save.go`,
`src/unnamed/part_001`), the restore workflow (`src/ui/restore.go`) and the
web restore handler (`src/web/server.go`).

The external version-control executable is the only I/O boundary; every
wrapper receives the outcome of its subprocess invocations (captured output
plus a success flag) and of its file-system operations as explicit
parameters.  Go strings are modelled as Lean `String`s (character lists);
Go byte indexing is modelled by character indexing, which agrees on the
ASCII data these parsers consume.  Mutating operations are recorded in a
trace of `GitOp` values in invocation order, whether or not the individual
invocation succeeds, so that ordering and abort behaviour can be stated.
-/

set_option linter.unusedVariables false

namespace Smooth

/-! ## Models of Go standard-library string helpers -/

/-- Go `strings.HasPrefix`, on the character-list contents. -/
def goHasPrefix (s pfx : String) : Bool :=
  pfx.data.isPrefixOf s.data

/-- Go `strings.TrimPrefix`: drop the prefix when present, else unchanged. -/
def goTrimPrefix (s pfx : String) : String :=
  if goHasPrefix s pfx then ⟨s.data.drop pfx.data.length⟩ else s

/-- Whitespace recognised by the model of Go `strings.TrimSpace`
(ASCII space, tab, newline, carriage return). -/
def isAsciiSpace (c : Char) : Bool :=
  c = ' ' || c = '\t' || c = '\n' || c = '\r'

/-- Go `strings.TrimSpace` (restricted to ASCII whitespace). -/
def goTrimSpace (s : String) : String :=
  ⟨((s.data.dropWhile isAsciiSpace).reverse.dropWhile isAsciiSpace).reverse⟩

/-- Splitting a character list at every occurrence of `sep`, accumulating
the current field in reverse. -/
def splitCharAux (sep : Char) : List Char → List Char → List String
  | [], acc => [⟨acc.reverse⟩]
  | c :: cs, acc =>
      if c = sep then ⟨acc.reverse⟩ :: splitCharAux sep cs []
      else splitCharAux sep cs (c :: acc)

/-- Go `strings.Split(s, sep)` for a one-character separator (the only
shape this code base uses: `"\n"` and `"|"`).  The empty string yields the
single field `""`. -/
def splitChar (sep : Char) (s : String) : List String :=
  splitCharAux sep s.data []

/-- Go `strings.SplitN(s, "|", 2)`: the part before the first bar and the
rest; the second component is `""` when no bar occurs (in which case Go
produces a single part and the callers substitute the empty string). -/
def splitN2Bar (s : String) : String × String :=
  match splitChar '|' s with
  | [] => ("", "")
  | [a] => (a, "")
  | a :: rest => (a, String.intercalate "|" rest)

/-! ## Data model (`src/git/git.go`) -/

/-- `git.CommitInfo` (src/git/git.go:12). -/
structure CommitInfo where
  Hash : String
  Message : String
  Timestamp : String
  FullHash : String
deriving DecidableEq

/-- `git.BranchInfo` (src/git/git.go:20). -/
structure BranchInfo where
  Name : String
  IsCurrent : Bool
deriving DecidableEq

/-- `git.FileChange` (src/git/git.go:320). -/
structure FileChange where
  Status : String
  Path : String
deriving DecidableEq

/-- `git.BackupInfo` (src/git/git.go:526). -/
structure BackupInfo where
  Name : String
  ForBranch : String
  Timestamp : String
  CommitHash : String
  Message : String
deriving DecidableEq

/-- The mutating operations issued to the external tool or the ignore file,
recorded as a trace in invocation order. -/
inductive GitOp where
  | revertFiles (paths : List String)
  | addToGitignore (pattern : String)
  | addFiles (paths : List String)
  | commit (message : String)
  | createBackup (name : String)
  | resetHard (commitHash : String)
  | deleteBackup (name : String)
deriving DecidableEq

/-- Whether the operation is a backup-branch creation. -/
def GitOp.isCreateBackup : GitOp → Bool
  | .createBackup _ => true
  | _ => false

/-- Whether the operation is a hard reset. -/
def GitOp.isResetHard : GitOp → Bool
  | .resetHard _ => true
  | _ => false

/-- Whether the operation is a staging call. -/
def GitOp.isAddFiles : GitOp → Bool
  | .addFiles _ => true
  | _ => false

/-- Whether the operation is a commit. -/
def GitOp.isCommit : GitOp → Bool
  | .commit _ => true
  | _ => false

/-- Whether the operation mentions the path `p` at all. -/
def GitOp.touches (p : String) : GitOp → Bool
  | .revertFiles l => l.contains p
  | .addToGitignore q => q == p
  | .addFiles l => l.contains p
  | _ => false

/-- A trace never performs a hard reset before the first backup creation
(vacuously true when no reset occurs). -/
def backupPrecedesReset (tr : List GitOp) : Bool :=
  (tr.takeWhile fun op => !op.isCreateBackup).all fun op => !op.isResetHard

/-! ## Repository status readers (`src/git/git.go`) -/

/-- `git.HasChanges` (src/git/git.go:172): a failed `status --porcelain`
invocation yields `false`, otherwise non-empty output. -/
def HasChanges (runOutput : String) (runOk : Bool) : Bool :=
  if runOk = false then false else runOutput != ""

/-- One line of `git log` output in the `%h|%s|%cr|%H` format,
split by Go `strings.SplitN(line, "|", 4)` and kept only when it has
exactly four parts (src/git/git.go:151-160). -/
def parseCommitLine (line : String) : Option CommitInfo :=
  match splitChar '|' line with
  | p0 :: p1 :: p2 :: q :: qs =>
      some ⟨p0, p1, p2, String.intercalate "|" (q :: qs)⟩
  | _ => none

/-- `git.Log` (src/git/git.go:138): `runOutput`/`runOk` are the captured
output and exit status of `git log -<count> --format=%h|%s|%cr|%H`.
The error is checked before the empty-output case. -/
def Log (count : Int) (runOutput : String) (runOk : Bool) :
    Except String (List CommitInfo) :=
  if runOk = false then Except.error runOutput
  else if runOutput = "" then Except.ok []
  else Except.ok ((splitChar '\n' runOutput).filterMap parseCommitLine)

/-- The status classification switch of `git.GetChangeSummary`
(src/git/git.go:347-356), on the two characters of the status code. -/
def classifyStatusCode (c0 c1 : Char) : String :=
  if c0 = 'A' ∨ c1 = 'A' ∨ (c0 = '?' ∧ c1 = '?') then "added"
  else if c0 = 'D' ∨ c1 = 'D' then "deleted"
  else if c0 = 'R' ∨ c1 = 'R' then "renamed"
  else "modified"

/-- One line of porcelain status output (src/git/git.go:338-361): lines of
fewer than three characters are skipped, the first two characters are the
status code and the remainder is the whitespace-trimmed path. -/
def parseStatusLine (line : String) : Option FileChange :=
  if line.length < 3 then none
  else
    match line.data with
    | c0 :: c1 :: rest => some ⟨classifyStatusCode c0 c1, goTrimSpace ⟨rest⟩⟩
    | _ => none

/-- `git.GetChangeSummary` (src/git/git.go:326): parses
`git status --porcelain` output. -/
def GetChangeSummary (runOutput : String) (runOk : Bool) :
    Except String (List FileChange) :=
  if runOk = false then Except.error runOutput
  else if runOutput = "" then Except.ok []
  else Except.ok ((splitChar '\n' runOutput).filterMap parseStatusLine)

/-! ## Backups (`src/git/git.go`) -/

/-- The naming convention `backup/<for-branch>/` (src/git/git.go:538,551). -/
def backupNamePfx (forBranch : String) : String :=
  "backup/" ++ forBranch ++ "/"

/-- The backup-branch name generated by `git.CreateBackup`
(src/git/git.go:536-538): `backup/<branch>/<timestamp>`. -/
def CreateBackupName (forBranch now : String) : String :=
  backupNamePfx forBranch ++ now

/-- One line of the `git branch --format=%(refname:short)` listing inside
`git.ListBackups` (src/git/git.go:565-593).  `info line` is the outcome of
`git log -1 --format=%h|%s <line>`: `none` when that invocation fails (the
line is then skipped), otherwise its output. -/
def parseBackupLine (info : String → Option String) (forBranch : String)
    (line : String) : Option BackupInfo :=
  if goHasPrefix line (backupNamePfx forBranch) then
    match info line with
    | none => none
    | some ci =>
        let hm := splitN2Bar ci
        some ⟨line, forBranch, goTrimPrefix line (backupNamePfx forBranch),
              hm.1, hm.2⟩
  else none

/-- The per-line filtering and final reversal of `git.ListBackups`
(src/git/git.go:563-601): matching lines are collected in input order and
the list is reversed at the end. -/
def listBackupsLines (info : String → Option String) (forBranch : String)
    (lines : List String) : List BackupInfo :=
  (lines.filterMap (parseBackupLine info forBranch)).reverse

/-- `git.ListBackups` (src/git/git.go:550): `runOutput`/`runOk` are the
captured output and exit status of `git branch --format=%(refname:short)`. -/
def ListBackups (info : String → Option String) (forBranch : String)
    (runOutput : String) (runOk : Bool) : Except String (List BackupInfo) :=
  if runOk = false then Except.error runOutput
  else if runOutput = "" then Except.ok []
  else Except.ok (listBackupsLines info forBranch (splitChar '\n' runOutput))

/-- The trimming step of `git.TrimBackups` (src/git/git.go:804-826) on an
already obtained backup list: clamp `maxCount` to at least 1, keep the
first `maxCount` entries and attempt to delete every later entry.
`deleteOk` gives the outcome of each `git branch -D`; a failed deletion
does not stop the remaining attempts and no failure is propagated, so the
result does not depend on `deleteOk`. -/
def trimBackupsList (deleteOk : String → Bool) (backups : List BackupInfo)
    (maxCount : Int) : List GitOp × Option String :=
  let maxC : Int := if maxCount < 1 then 1 else maxCount
  if (backups.length : Int) ≤ maxC then ([], none)
  else ((backups.drop maxC.toNat).map fun b => GitOp.deleteBackup b.Name,
        none)

/-- `git.TrimBackups` (src/git/git.go:803): list the backups for the
branch, return the listing error if any, otherwise trim. -/
def TrimBackups (info : String → Option String) (deleteOk : String → Bool)
    (forBranch : String) (branchOutput : String) (branchOk : Bool)
    (maxCount : Int) : List GitOp × Option String :=
  match ListBackups info forBranch branchOutput branchOk with
  | Except.error e => ([], some e)
  | Except.ok backups => trimBackupsList deleteOk backups maxCount

/-! ## Configuration (`src/config/config.go`) -/

/-- `config.Config` (src/config/config.go:154).  `MaxBackups` is a Go
`int`, modelled as `Int`. -/
structure Config where
  AutoSyncEnabled : Bool
  MaxBackups : Int
  ExperimentsEnabled : Bool
  Theme : String
deriving DecidableEq

/-- `config.DefaultConfig` (src/config/config.go:162). -/
def DefaultConfig : Config :=
  ⟨false, 10, false, "coral"⟩

/-- The keys of the `config.Themes` map (src/config/config.go:24-145),
in the order of `config.ThemeNames`. -/
def themeKeys : List String :=
  ["coral", "ocean", "forest", "dracula", "nord",
   "solarized", "monokai", "cyberpunk", "gruvbox", "rosepine"]

/-- The possible states of the config file on disk, as distinguished by
`config.Load` (src/config/config.go:195-228): the home-directory lookup may
fail, the file may be absent, unreadable for another reason, present but
not valid JSON, or present and parsed into a `Config`. -/
inductive ConfigDisk where
  | pathError
  | absent
  | readError
  | malformed
  | parsed (c : Config)

/-- `config.Load` (src/config/config.go:195): returns the loaded (or
default) config together with the error value (`none` for Go `nil`). -/
def Load : ConfigDisk → Config × Option String
  | ConfigDisk.pathError => (DefaultConfig, some "config path error")
  | ConfigDisk.absent => (DefaultConfig, none)
  | ConfigDisk.readError => (DefaultConfig, some "read error")
  | ConfigDisk.malformed => (DefaultConfig, some "unmarshal error")
  | ConfigDisk.parsed c =>
      let mb : Int := if c.MaxBackups < 1 then 1 else c.MaxBackups
      let th : String :=
        if c.Theme = "" then "coral"
        else if themeKeys.contains c.Theme then c.Theme
        else "coral"
      (⟨c.AutoSyncEnabled, mb, c.ExperimentsEnabled, th⟩, none)

/-! ## Save/review workflow (`src/ui/save.go`, `src/unnamed/part_001`) -/

/-- `ui.FileAction` (src/unnamed/part_001:16-23), in Go iota order. -/
inductive FileAction where
  | Save
  | Revert
  | IgnoreOnce
  | Ignore
deriving DecidableEq

/-- `ui.SaveFileItem` (src/ui/save.go:28); `ui.FileItem`
(src/unnamed/part_001:54) has the same shape. -/
structure SaveFileItem where
  Change : FileChange
  Action : FileAction
deriving DecidableEq

/-- The paths accumulated into `toSave` by the action loop of `doSave`
(src/ui/save.go:115-126). -/
def toSavePaths (files : List SaveFileItem) : List String :=
  files.filterMap fun f =>
    if f.Action = FileAction.Save then some f.Change.Path else none

/-- The paths accumulated into `toRevert` by the action loop of `doSave`. -/
def toRevertPaths (files : List SaveFileItem) : List String :=
  files.filterMap fun f =>
    if f.Action = FileAction.Revert then some f.Change.Path else none

/-- The paths accumulated into `toIgnore` by the action loop of `doSave`. -/
def toIgnorePaths (files : List SaveFileItem) : List String :=
  files.filterMap fun f =>
    if f.Action = FileAction.Ignore then some f.Change.Path else none

/-- The `skipped` counter of the action loop of `doSave`. -/
def skippedCount (files : List SaveFileItem) : Nat :=
  (files.filter fun f => f.Action = FileAction.IgnoreOnce).length

/-- Outcomes of the external calls made by `doSave`: whether
`git.RevertFiles` succeeds, whether `git.AddToGitignore` succeeds per
pattern, whether `git.AddFiles` and `git.Commit` succeed, and the output
of `git rev-parse --short HEAD`. -/
structure SaveEnv where
  revertOk : Bool
  ignoreOk : String → Bool
  addOk : Bool
  commitOk : Bool
  headShort : String

/-- `ui.SaveMsg` (src/ui/save.go:93). -/
structure SaveMsg where
  Err : Option String
  Hash : String
  SavedCount : Nat
  RevertedCount : Nat
  IgnoredCount : Nat
  SkippedCount : Nat
deriving DecidableEq

/-- The gitignore loop of `doSave` (src/ui/save.go:144-149): one
`git.AddToGitignore` call per path, aborting with the first error.  The
trace records every call attempted, including the failing one. -/
def addIgnoresLoop (ok : String → Bool) : List String → List GitOp × Option String
  | [] => ([], none)
  | p :: rest =>
      if ok p then
        let r := addIgnoresLoop ok rest
        (GitOp.addToGitignore p :: r.1, r.2)
      else ([GitOp.addToGitignore p],
            some ("failed to add " ++ p ++ " to .gitignore"))

/-- `ui.doSave` (src/ui/save.go:108-174); `ui.doSaveV2`
(src/unnamed/part_001:127-187) performs the identical sequence of
operations.  Returns the trace of mutating calls in invocation order and
the resulting `SaveMsg`. -/
def doSave (env : SaveEnv) (message : String) (files : List SaveFileItem) :
    List GitOp × SaveMsg :=
  let toSave := toSavePaths files
  let toRevert := toRevertPaths files
  let toIgnore := toIgnorePaths files
  let msg : Option String → String → SaveMsg := fun e h =>
    ⟨e, h, toSave.length, toRevert.length, toIgnore.length,
     skippedCount files⟩
  if toRevert ≠ [] ∧ env.revertOk = false then
    ([GitOp.revertFiles toRevert], msg (some "failed to revert files") "")
  else
    let rTr : List GitOp :=
      if toRevert = [] then [] else [GitOp.revertFiles toRevert]
    let ig := addIgnoresLoop env.ignoreOk toIgnore
    match ig.2 with
    | some e => (rTr ++ ig.1, msg (some e) "")
    | none =>
        if toSave = [] then (rTr ++ ig.1, msg none "")
        else
          let staged := toSave ++ (if toIgnore = [] then [] else [".gitignore"])
          if env.addOk = false then
            (rTr ++ ig.1 ++ [GitOp.addFiles staged],
             msg (some "failed to stage files") "")
          else if env.commitOk = false then
            (rTr ++ ig.1 ++ [GitOp.addFiles staged, GitOp.commit message],
             msg (some "failed to commit") "")
          else
            (rTr ++ ig.1 ++ [GitOp.addFiles staged, GitOp.commit message],
             msg none env.headShort)

/-- The revert step of `doSave` as a trace: one `git.RevertFiles` call for
all Revert-marked paths when there are any, nothing otherwise. -/
def revertTraceOf (files : List SaveFileItem) : List GitOp :=
  if toRevertPaths files = [] then []
  else [GitOp.revertFiles (toRevertPaths files)]

/-- The list handed to `git.AddFiles` by step 3 of `doSave`: the
Save-marked paths, plus the ignore file itself when any Ignore action was
applied (src/ui/save.go:152-156). -/
def stagedOf (files : List SaveFileItem) : List String :=
  toSavePaths files ++ (if toIgnorePaths files = [] then [] else [".gitignore"])

/-- The effect of a trace on the ignore-file contents:
`git.AddToGitignore` (src/git/git.go:67-81) appends a newline followed by
the pattern; a failed call (the open failing) writes nothing.  File
contents are character lists. -/
def applyIgnoreOps (ok : String → Bool) (content : List Char) :
    List GitOp → List Char
  | [] => content
  | GitOp.addToGitignore p :: rest =>
      applyIgnoreOps ok
        (if ok p then content ++ '\n' :: p.data else content) rest
  | _ :: rest => applyIgnoreOps ok content rest

/-- Appending `"\n" ++ p` to the contents for each pattern in order. -/
def appendIgnoreLines (content : List Char) (l : List String) : List Char :=
  List.foldl (fun c p => c ++ '\n' :: p.data) content l

/-- `p` occurs verbatim as a full line of `content`: it is preceded by a
newline and followed by the end of the file or another newline. -/
def isLineOf (p : String) (content : List Char) : Prop :=
  ∃ a b, content = a ++ '\n' :: (p.data ++ b) ∧ (b = [] ∨ ∃ t, b = '\n' :: t)

/-- `ui.SaveState` (src/ui/save.go:18-25). -/
inductive SaveState where
  | Review
  | Executing
  | AutoSyncing
  | Success
  | Error
  | NoChanges
deriving DecidableEq

/-- `ui.SaveV2State` (src/unnamed/part_001:43-51). -/
inductive SaveV2State where
  | Review
  | Input
  | Executing
  | AutoSyncing
  | Success
  | Error
  | NoChanges
deriving DecidableEq

/-- `SaveModel.hasFilesToSave` / `SaveV2Model.hasFilesToSave`. -/
def hasFilesToSave (files : List SaveFileItem) : Bool :=
  files.any fun f => f.Action = FileAction.Save

/-- `SaveV2Model.hasAnyAction` (src/unnamed/part_001:257-264). -/
def hasAnyAction (files : List SaveFileItem) : Bool :=
  files.any fun f => f.Action ≠ FileAction.IgnoreOnce

/-- The Enter transition of `SaveModel.Update` in `SaveStateReview`
(src/ui/save.go:280-286): execution starts exactly when the commit-message
input is non-empty; the per-file actions are not consulted. -/
def saveReviewEnter (message : String) (files : List SaveFileItem) : SaveState :=
  if message ≠ "" then SaveState.Executing else SaveState.Review

/-- The Enter transition of `SaveV2Model.Update` in `SaveV2StateReview`
(src/unnamed/part_001:326-335). -/
def saveV2ReviewEnter (files : List SaveFileItem) : SaveV2State :=
  if hasFilesToSave files then SaveV2State.Input
  else if hasAnyAction files then SaveV2State.Executing
  else SaveV2State.Review

/-- The Enter transition of `SaveV2Model.Update` in `SaveV2StateInput`
(src/unnamed/part_001:339-344). -/
def saveV2InputEnter (message : String) : SaveV2State :=
  if message ≠ "" then SaveV2State.Executing else SaveV2State.Input

/-! ## Restore workflow (`src/ui/restore.go`, `src/web/server.go`) -/

/-- Outcomes of the external calls made by a restore: whether the
backup-branch creation succeeds, the timestamp used for its name, the
outcome of the branch listing and per-backup data used by
`git.TrimBackups`, the per-deletion outcomes, the configured maximum, and
whether the hard reset succeeds. -/
structure RestoreEnv where
  backupOk : Bool
  now : String
  branchOutput : String
  branchOk : Bool
  info : String → Option String
  deleteOk : String → Bool
  maxBackups : Int
  resetOk : Bool

/-- `ui.RestoreMsg` (src/ui/restore.go:82). -/
structure RestoreMsg where
  Err : Option String
  BackupName : String
deriving DecidableEq

/-- `ui.doRestore` (src/ui/restore.go:88-108): create a backup branch
first (aborting on failure), trim old backups best-effort, then hard
reset.  Returns the trace and the `RestoreMsg`. -/
def doRestore (env : RestoreEnv) (commitHash branch : String) :
    List GitOp × RestoreMsg :=
  let backupName := CreateBackupName branch env.now
  if env.backupOk = false then
    ([GitOp.createBackup backupName], ⟨some "failed to create backup", ""⟩)
  else
    let trim := TrimBackups env.info env.deleteOk branch env.branchOutput
      env.branchOk env.maxBackups
    let tr := GitOp.createBackup backupName :: trim.1
      ++ [GitOp.resetHard commitHash]
    if env.resetOk = false then (tr, ⟨some "reset failed", backupName⟩)
    else (tr, ⟨none, backupName⟩)

/-- An HTTP handler outcome: a success payload or an error status code
with a message. -/
inductive WebResult where
  | ok (backup : String)
  | err (code : Nat) (message : String)
deriving DecidableEq

/-- `web.handleRestore` (src/web/server.go:175-199): method and body
checks, then the same backup-trim-reset protocol as `ui.doRestore`.
`reqCommitHash` is `none` when the request body fails to decode. -/
def handleRestore (env : RestoreEnv) (method : String)
    (reqCommitHash : Option String) (branch : String) :
    List GitOp × WebResult :=
  if method ≠ "POST" then ([], WebResult.err 405 "Method not allowed")
  else
    match reqCommitHash with
    | none => ([], WebResult.err 400 "Invalid request")
    | some commitHash =>
        let backupName := CreateBackupName branch env.now
        if env.backupOk = false then
          ([GitOp.createBackup backupName],
           WebResult.err 500 "Failed to create backup")
        else
          let trim := TrimBackups env.info env.deleteOk branch
            env.branchOutput env.branchOk env.maxBackups
          let tr := GitOp.createBackup backupName :: trim.1
            ++ [GitOp.resetHard commitHash]
          if env.resetOk = false then (tr, WebResult.err 500 "reset failed")
          else (tr, WebResult.ok backupName)

/-! ## Concrete fixtures for witnesses and counterexamples -/

/-- A commit-info oracle whose `git log -1` always succeeds with a fixed
hash and subject. -/
def infoFix : String → Option String := fun _ => some "abc1234|msg"

/-- A save environment in which every external call succeeds. -/
def saveEnvAllOk : SaveEnv :=
  ⟨true, fun _ => true, true, true, "abc1234"⟩

/-- A save environment in which appending `"c"` to the ignore file fails
and everything else succeeds. -/
def saveEnvBadC : SaveEnv :=
  ⟨true, fun q => q != "c", true, true, "abc1234"⟩

/-- A restore environment in which every external call succeeds. -/
def restoreEnvOk : RestoreEnv :=
  ⟨true, "20240105-120000", "", true, infoFix, fun _ => true, 10, true⟩

/-- A restore environment in which the backup-branch creation fails. -/
def restoreEnvNoBackup : RestoreEnv :=
  ⟨false, "20240105-120000", "", true, infoFix, fun _ => true, 10, true⟩

/-- A review list whose only file is marked SkipOnce. -/
def filesSkipOnly : List SaveFileItem :=
  [⟨⟨"modified", "a"⟩, FileAction.IgnoreOnce⟩]

/-- A review list whose only file is marked Revert. -/
def filesRevertOnly : List SaveFileItem :=
  [⟨⟨"modified", "a"⟩, FileAction.Revert⟩]

/-- A review list in which the changed file `.gitignore` itself is marked
SkipOnce while another file is marked Ignore and a third is marked Save. -/
def filesSkipGitignore : List SaveFileItem :=
  [⟨⟨"modified", ".gitignore"⟩, FileAction.IgnoreOnce⟩,
   ⟨⟨"modified", "a"⟩, FileAction.Ignore⟩,
   ⟨⟨"modified", "b"⟩, FileAction.Save⟩]

/-- A review list whose only file is marked Ignore. -/
def filesIgnoreOnly : List SaveFileItem :=
  [⟨⟨"modified", "secret.txt"⟩, FileAction.Ignore⟩]

/-- One file of each action, for exercising the execution order. -/
def filesMixed : List SaveFileItem :=
  [⟨⟨"modified", "a"⟩, FileAction.Save⟩,
   ⟨⟨"modified", "b"⟩, FileAction.Revert⟩,
   ⟨⟨"modified", "c"⟩, FileAction.Ignore⟩,
   ⟨⟨"modified", "d"⟩, FileAction.IgnoreOnce⟩]

/-- Two Ignore-marked files whose second append fails under
`saveEnvBadC`, plus a Save-marked file. -/
def filesIgnoreBad : List SaveFileItem :=
  [⟨⟨"modified", "x1"⟩, FileAction.Ignore⟩,
   ⟨⟨"modified", "c"⟩, FileAction.Ignore⟩,
   ⟨⟨"modified", "s"⟩, FileAction.Save⟩]

/-- Three backup branch lines for `main`, listed ascending as the external
tool emits them. -/
def backupLinesAsc : List String :=
  ["backup/main/20240101-000000", "backup/main/20240102-000000",
   "backup/main/20240103-000000"]

/-- Two backup branch lines for `main` listed newest-first, i.e. not in
the ascending order the external tool emits. -/
def backupLinesDesc : List String :=
  ["backup/main/20240102-120000", "backup/main/20240101-120000"]

/-! ## Theorems: status readers and configuration -/

/-- C10: whenever the `git status --porcelain` invocation fails,
`HasChanges` returns `false` — exactly the value it returns for a clean
working tree (successful invocation with empty output), so callers cannot
distinguish a failing tool from "no uncommitted changes". -/
theorem hasChanges_false_on_failed_run :
    ∀ runOutput : String,
      HasChanges runOutput false = false ∧ HasChanges "" true = false := by
  intro runOutput
  exact ⟨by simp [HasChanges], by simp [HasChanges]⟩

/-- C7: contrary to the specified behaviour, `Log` checks the invocation
error before the empty-output case, so a failed `git log` run — which is
what the external tool produces on a repository with no commits — is
propagated as an error; the empty sequence is returned only when the
invocation itself succeeds with empty output. -/
theorem log_propagates_failed_run :
    ∀ (count : Int) (runOutput : String),
      Log count runOutput false = Except.error runOutput ∧
      Log count "" true = Except.ok [] := by
  intro count runOutput
  exact ⟨by simp [Log], by simp [Log]⟩

/-- C9: a missing config file loads the defaults
`{autoSyncEnabled := false, maxBackups := 10, experimentsEnabled := false,
theme := "coral"}` with no error, and every successfully parsed config is
normalised: `maxBackups` below 1 is clamped to 1 (otherwise kept), and an
empty or unknown theme id is replaced by `"coral"` (a known one is kept). -/
theorem load_defaults_and_clamps :
    Load ConfigDisk.absent = (⟨false, 10, false, "coral"⟩, none) ∧
    ∀ c : Config,
      (Load (ConfigDisk.parsed c)).2 = none ∧
      (Load (ConfigDisk.parsed c)).1.AutoSyncEnabled = c.AutoSyncEnabled ∧
      (Load (ConfigDisk.parsed c)).1.ExperimentsEnabled = c.ExperimentsEnabled ∧
      (Load (ConfigDisk.parsed c)).1.MaxBackups = max 1 c.MaxBackups ∧
      (Load (ConfigDisk.parsed c)).1.Theme =
        (if c.Theme ∈ themeKeys then c.Theme else "coral") := by
  refine ⟨rfl, fun c => ⟨rfl, rfl, rfl, ?_, ?_⟩⟩
  · show (if c.MaxBackups < 1 then (1 : Int) else c.MaxBackups) = max 1 c.MaxBackups
    split <;> omega
  · show (if c.Theme = "" then "coral"
        else if themeKeys.contains c.Theme then c.Theme else "coral") =
      (if c.Theme ∈ themeKeys then c.Theme else "coral")
    by_cases h0 : c.Theme = ""
    · have hnm : ("" : String) ∉ themeKeys := by decide
      rw [h0]
      simp [hnm]
    · by_cases hm : c.Theme ∈ themeKeys
      · simp [h0, hm]
      · simp [h0, hm]

/-- C8: the two-character porcelain status codes are classified with the
precedence: any `A` or the untracked marker `??` gives `added`, otherwise
any `D` gives `deleted`, otherwise any `R` gives `renamed`, otherwise
`modified`; in particular in a status listing the codes `A ` and `??`
classify as added, ` D` as deleted, `R ` as renamed and `MM` as
modified. -/
theorem changed_files_classification :
    (∀ c0 c1 : Char,
      (classifyStatusCode c0 c1 = "added" ↔
        (c0 = 'A' ∨ c1 = 'A' ∨ (c0 = '?' ∧ c1 = '?'))) ∧
      (classifyStatusCode c0 c1 = "deleted" ↔
        (¬(c0 = 'A' ∨ c1 = 'A' ∨ (c0 = '?' ∧ c1 = '?')) ∧
         (c0 = 'D' ∨ c1 = 'D'))) ∧
      (classifyStatusCode c0 c1 = "renamed" ↔
        (¬(c0 = 'A' ∨ c1 = 'A' ∨ (c0 = '?' ∧ c1 = '?')) ∧
         ¬(c0 = 'D' ∨ c1 = 'D') ∧ (c0 = 'R' ∨ c1 = 'R'))) ∧
      (classifyStatusCode c0 c1 = "modified" ↔
        (¬(c0 = 'A' ∨ c1 = 'A' ∨ (c0 = '?' ∧ c1 = '?')) ∧
         ¬(c0 = 'D' ∨ c1 = 'D') ∧ ¬(c0 = 'R' ∨ c1 = 'R')))) ∧
    GetChangeSummary "A  f1\n?? f2\n D f3\nR  f4\nMM f5" true =
      Except.ok [⟨"added", "f1"⟩, ⟨"added", "f2"⟩, ⟨"deleted", "f3"⟩,
                 ⟨"renamed", "f4"⟩, ⟨"modified", "f5"⟩] := by
  refine ⟨fun c0 c1 => ?_, rfl⟩
  have had : ("added" : String) ≠ "deleted" := by decide
  have har : ("added" : String) ≠ "renamed" := by decide
  have ham : ("added" : String) ≠ "modified" := by decide
  have hdr : ("deleted" : String) ≠ "renamed" := by decide
  have hdm : ("deleted" : String) ≠ "modified" := by decide
  have hrm : ("renamed" : String) ≠ "modified" := by decide
  unfold classifyStatusCode
  split_ifs with h1 h2 h3 <;>
    refine ⟨?_, ?_, ?_, ?_⟩ <;>
    simp_all [eq_comm]

/-! ## Theorems: save/review state machine transitions -/

/-- C3 (counterexample): in `SaveModel.Update` the Review-to-Executing
transition is gated only on a non-empty commit message: a list whose only
file is marked SkipOnce transitions to Executing when a message is typed
(although no file is marked Save and no file has a non-SkipOnce action),
and a revert-only list does not transition without a message. -/
theorem save_enter_gate_counterexample :
    saveReviewEnter "x" filesSkipOnly = SaveState.Executing ∧
    hasFilesToSave filesSkipOnly = false ∧
    hasAnyAction filesSkipOnly = false ∧
    saveReviewEnter "" filesRevertOnly = SaveState.Review ∧
    hasAnyAction filesRevertOnly = true := by decide

/-- C3 (amended): in the experimental `SaveV2Model.Update` state machine,
Enter in Review moves to the message input exactly when some file is
marked Save, moves directly to Executing exactly when no file is marked
Save but some file has a non-SkipOnce action (no message required), and
Enter in Input executes exactly when the message is non-empty; in the
`SaveModel.Update` state machine, the Review-to-Executing transition is
permitted exactly when the commit message is non-empty, regardless of the
per-file actions. -/
theorem save_enter_transitions :
    ∀ (message : String) (files : List SaveFileItem),
      (saveReviewEnter message files = SaveState.Executing ↔ message ≠ "") ∧
      (saveV2ReviewEnter files = SaveV2State.Input ↔
        hasFilesToSave files = true) ∧
      (saveV2ReviewEnter files = SaveV2State.Executing ↔
        (hasFilesToSave files = false ∧ hasAnyAction files = true)) ∧
      (saveV2InputEnter message = SaveV2State.Executing ↔ message ≠ "") := by
  intro message files
  refine ⟨?_, ?_, ?_, ?_⟩
  · unfold saveReviewEnter
    split_ifs with h <;> simp_all
  · unfold saveV2ReviewEnter
    split_ifs with h1 h2 <;> simp_all
  · unfold saveV2ReviewEnter
    split_ifs with h1 h2 <;> simp_all
  · unfold saveV2InputEnter
    split_ifs with h <;> simp_all

/-! ## Theorems: restore protocol -/

/-- A trace that begins with a backup creation never resets before backing
up. -/
theorem backupPrecedesReset_of_head_create (name : String) (tr : List GitOp) :
    backupPrecedesReset (GitOp.createBackup name :: tr) = true := by
  simp [backupPrecedesReset, List.takeWhile_cons, GitOp.isCreateBackup]

/-- The empty trace trivially never resets before backing up. -/
theorem backupPrecedesReset_nil : backupPrecedesReset [] = true := rfl

/-- C1: every restore — terminal (`doRestore`) and web (`handleRestore`) —
creates the backup branch before any hard reset appears in its trace; when
the backup creation fails, the operation returns an error, its trace is
the single failed backup-creation attempt with no reset, and any number of
repeated attempts after such a failure still performs no reset, leaving
history unchanged. -/
theorem restore_backup_before_reset
    (envA envB : RestoreEnv) (commitHash branch method : String)
    (req : Option String)
    (hfail : envB.backupOk = false) :
    backupPrecedesReset (doRestore envA commitHash branch).1 = true ∧
    backupPrecedesReset (handleRestore envA method req branch).1 = true ∧
    (doRestore envB commitHash branch).1 =
      [GitOp.createBackup (CreateBackupName branch envB.now)] ∧
    (doRestore envB commitHash branch).2.Err = some "failed to create backup" ∧
    (∀ n : Nat,
      ((List.replicate n (doRestore envB commitHash branch).1).flatten.all
        fun op => !op.isResetHard) = true) ∧
    (handleRestore envB "POST" (some commitHash) branch).1 =
      [GitOp.createBackup (CreateBackupName branch envB.now)] ∧
    (handleRestore envB "POST" (some commitHash) branch).2 =
      WebResult.err 500 "Failed to create backup" := by
  have hTrB : (doRestore envB commitHash branch).1 =
      [GitOp.createBackup (CreateBackupName branch envB.now)] := by
    unfold doRestore
    simp [hfail]
  refine ⟨?_, ?_, hTrB, ?_, ?_, ?_, ?_⟩
  · unfold doRestore
    split_ifs <;> exact backupPrecedesReset_of_head_create _ _
  · unfold handleRestore
    cases req with
    | none => split_ifs <;> exact backupPrecedesReset_nil
    | some h =>
        split_ifs with h1
        · exact backupPrecedesReset_nil
        all_goals exact backupPrecedesReset_of_head_create _ _
  · unfold doRestore
    simp [hfail]
  · intro n
    rw [hTrB]
    simp only [List.all_eq_true, List.mem_flatten, List.mem_replicate]
    rintro op ⟨l, ⟨-, rfl⟩, hop⟩
    simp only [List.mem_singleton] at hop
    subst hop
    rfl
  · unfold handleRestore
    simp [hfail]
  · unfold handleRestore
    simp [hfail]

/-- C1 witness: concrete restores.  With every call succeeding the backup
creation precedes the reset; with backup creation failing the trace is the
single failed attempt, the result is an error, three repeated attempts
contain no reset, and the web handler answers 500. -/
theorem restore_backup_before_reset_witness :
    backupPrecedesReset (doRestore restoreEnvOk "deadbeef" "main").1 = true ∧
    (doRestore restoreEnvNoBackup "deadbeef" "main").1 =
      [GitOp.createBackup "backup/main/20240105-120000"] ∧
    (doRestore restoreEnvNoBackup "deadbeef" "main").2.Err =
      some "failed to create backup" ∧
    ((List.replicate 3 (doRestore restoreEnvNoBackup "deadbeef" "main").1).flatten.all
      fun op => !op.isResetHard) = true ∧
    (handleRestore restoreEnvNoBackup "POST" (some "deadbeef") "main").2 =
      WebResult.err 500 "Failed to create backup" := by
  have h := restore_backup_before_reset restoreEnvOk restoreEnvNoBackup
    "deadbeef" "main" "POST" (some "deadbeef") rfl
  exact ⟨h.1, h.2.2.1, h.2.2.2.1, h.2.2.2.2.1 3, h.2.2.2.2.2.2⟩

/-! ## Theorems: backup listing order -/

/-- Cancelling a common front segment of a lexicographic comparison of
character lists. -/
theorem lex_of_append_left_lex {pd a b : List Char}
    (h : List.Lex (· < ·) (pd ++ a) (pd ++ b)) : List.Lex (· < ·) a b := by
  induction pd with
  | nil => exact h
  | cons x xs ih =>
      cases h with
      | rel hr => exact absurd hr (lt_irrefl x)
      | cons ht => exact ih ht

/-- Strings with a common front segment compare like their tails. -/
theorem string_tail_lt {pd t₁ t₂ : List Char}
    (h : (⟨pd ++ t₁⟩ : String) < ⟨pd ++ t₂⟩) : (⟨t₁⟩ : String) < ⟨t₂⟩ := by
  rw [String.lt_iff_toList_lt] at h ⊢
  have h' : List.Lex (· < ·) (pd ++ t₁) (pd ++ t₂) := h
  exact (lex_of_append_left_lex h' : List.Lex (· < ·) t₁ t₂)

/-- A successfully parsed backup line is the prefix `backup/<branch>/`
followed by the entry's timestamp, and the entry's name is the line. -/
theorem parseBackupLine_shape {info : String → Option String}
    {fb line : String} {b : BackupInfo}
    (h : parseBackupLine info fb line = some b) :
    line.data = (backupNamePfx fb).data ++ b.Timestamp.data ∧ b.Name = line := by
  unfold parseBackupLine at h
  cases hgp : goHasPrefix line (backupNamePfx fb) with
  | false => rw [hgp] at h; simp at h
  | true =>
      rw [hgp] at h
      simp only [if_true] at h
      cases hinfo : info line with
      | none => rw [hinfo] at h; simp at h
      | some ci =>
          rw [hinfo] at h
          simp only [Option.some.injEq] at h
          subst h
          have hpre : (backupNamePfx fb).data <+: line.data := by
            have := hgp
            unfold goHasPrefix at this
            exact List.isPrefixOf_iff_prefix.1 this
          obtain ⟨t, ht⟩ := hpre
          constructor
          · show line.data = (backupNamePfx fb).data ++
              (goTrimPrefix line (backupNamePfx fb)).data
            unfold goTrimPrefix
            rw [hgp]
            simp only [if_true]
            show line.data = (backupNamePfx fb).data ++
              (line.data.drop (backupNamePfx fb).data.length)
            rw [← ht, List.drop_left]
          · rfl

/-- When the branch listing presents names in strictly ascending
lexicographic order (as the external tool emits them), the backup entries
collected by `listBackupsLines` carry strictly descending timestamps after
the final reversal. -/
theorem listBackupsLines_pairwise_desc (info : String → Option String)
    (forBranch : String) (lines : List String)
    (hsorted : List.Pairwise (fun a b : String => a < b) lines) :
    List.Pairwise (fun a b : BackupInfo => b.Timestamp < a.Timestamp)
      (listBackupsLines info forBranch lines) := by
  unfold listBackupsLines
  rw [List.pairwise_reverse]
  refine List.Pairwise.filterMap _ ?_ hsorted
  intro l₁ l₂ hlt b₁ hb₁ b₂ hb₂
  have h₁ := parseBackupLine_shape (Option.mem_def.1 hb₁)
  have h₂ := parseBackupLine_shape (Option.mem_def.1 hb₂)
  have hl : (⟨(backupNamePfx forBranch).data ++ b₁.Timestamp.data⟩ : String) <
      ⟨(backupNamePfx forBranch).data ++ b₂.Timestamp.data⟩ := by
    rw [← h₁.1, ← h₂.1]
    exact hlt
  have := string_tail_lt hl
  exact this

/-- C5 (counterexample): on a branch listing that presents the two backups
newest-first — a non-ascending input ordering — `listBackupsLines` returns
them oldest-first, so the result is not ordered newest-timestamp-first. -/
theorem listBackups_order_counterexample :
    ((listBackupsLines infoFix "main" backupLinesDesc).map
      fun b => b.Timestamp) = ["20240101-120000", "20240102-120000"] ∧
    ("20240101-120000" : String) < "20240102-120000" ∧
    ¬ List.Pairwise (fun a b : BackupInfo => b.Timestamp < a.Timestamp)
      (listBackupsLines infoFix "main" backupLinesDesc) := by
  refine ⟨rfl, ?_, ?_⟩
  · rw [String.lt_iff_toList_lt]; decide
  · simp only [String.lt_iff_toList_lt]
    decide

/-- C5 (amended): `listBackupsLines` returns the matching entries in
reverse order of their appearance in the branch listing; whenever the
listing presents branch names in strictly ascending lexicographic order
(which is how the external tool emits them, and under which the zero-padded
timestamps ascend), the returned entries are ordered strictly
newest-timestamp-first. -/
theorem listBackups_newest_first_on_sorted_input
    (info : String → Option String) (forBranch : String)
    (lines : List String)
    (hsorted : List.Pairwise (fun a b : String => a < b) lines) :
    listBackupsLines info forBranch lines =
      (lines.filterMap (parseBackupLine info forBranch)).reverse ∧
    List.Pairwise (fun a b : BackupInfo => b.Timestamp < a.Timestamp)
      (listBackupsLines info forBranch lines) :=
  ⟨rfl, listBackupsLines_pairwise_desc info forBranch lines hsorted⟩

/-- C5 witness: on the ascending three-entry listing the returned backups
have strictly descending timestamps. -/
theorem listBackups_newest_first_witness :
    List.Pairwise (fun a b : BackupInfo => b.Timestamp < a.Timestamp)
      (listBackupsLines infoFix "main" backupLinesAsc) := by
  have hs : List.Pairwise (fun a b : String => a < b) backupLinesAsc := by
    simp only [String.lt_iff_toList_lt]
    decide
  exact (listBackups_newest_first_on_sorted_input infoFix "main"
    backupLinesAsc hs).2

/-! ## Theorems: backup trimming -/

/-- C6: with `count` existing backups (listed newest-first from an
ascending branch listing), trimming to `m₁ ≥ count` deletes nothing and
returns no error; for any configured maximum `m₂` the trimmed operations
are exactly the entries beyond the first `max 1 m₂` (so at most
`count - m₂` deletions, each attempted irrespective of the per-deletion
outcomes, with no error returned and a result independent of which
deletions fail), and every deleted entry has a strictly older timestamp
than every kept entry — in particular none of the `m₂` newest is
deleted. -/
theorem trimBackups_bounds (info : String → Option String)
    (dOk dOk' : String → Bool) (forBranch : String) (lines : List String)
    (m₁ m₂ : Int)
    (hsorted : List.Pairwise (fun a b : String => a < b) lines)
    (h₁ : ((listBackupsLines info forBranch lines).length : Int) ≤ m₁) :
    trimBackupsList dOk (listBackupsLines info forBranch lines) m₁ =
      ([], none) ∧
    (trimBackupsList dOk (listBackupsLines info forBranch lines) m₂).2 =
      none ∧
    trimBackupsList dOk (listBackupsLines info forBranch lines) m₂ =
      trimBackupsList dOk' (listBackupsLines info forBranch lines) m₂ ∧
    (trimBackupsList dOk (listBackupsLines info forBranch lines) m₂).1 =
      (if ((listBackupsLines info forBranch lines).length : Int) ≤
          (if m₂ < 1 then 1 else m₂) then []
       else ((listBackupsLines info forBranch lines).drop
          (if m₂ < 1 then (1 : Int) else m₂).toNat).map
            fun b => GitOp.deleteBackup b.Name) ∧
    (((trimBackupsList dOk (listBackupsLines info forBranch lines) m₂).1.length :
        Int) ≤
      max (((listBackupsLines info forBranch lines).length : Int) - m₂) 0) ∧
    (∀ d ∈ (listBackupsLines info forBranch lines).drop
        (if m₂ < 1 then (1 : Int) else m₂).toNat,
      ∀ k ∈ (listBackupsLines info forBranch lines).take
        (if m₂ < 1 then (1 : Int) else m₂).toNat,
      d.Timestamp < k.Timestamp) := by
  have hdesc := listBackupsLines_pairwise_desc info forBranch lines hsorted
  set backs := listBackupsLines info forBranch lines with hbacks
  have hform : (trimBackupsList dOk backs m₂).1 =
      (if (backs.length : Int) ≤ (if m₂ < 1 then 1 else m₂) then []
       else (backs.drop (if m₂ < 1 then (1 : Int) else m₂).toNat).map
          fun b => GitOp.deleteBackup b.Name) := by
    simp only [trimBackupsList]
    split_ifs <;> rfl
  refine ⟨?_, ?_, rfl, hform, ?_, ?_⟩
  · have hle : (backs.length : Int) ≤ (if m₁ < 1 then 1 else m₁) := by
      split <;> omega
    simp only [trimBackupsList]
    rw [if_pos hle]
  · simp only [trimBackupsList]
    split_ifs <;> rfl
  · have hc0 : (0 : Int) ≤ (if m₂ < 1 then (1 : Int) else m₂) := by
      split <;> omega
    have hct : (((if m₂ < 1 then (1 : Int) else m₂).toNat : Int)) =
        (if m₂ < 1 then (1 : Int) else m₂) := Int.toNat_of_nonneg hc0
    have hm : m₂ ≤ (if m₂ < 1 then (1 : Int) else m₂) := by
      split <;> omega
    rw [hform]
    split_ifs with hcond <;>
      simp only [List.length_nil, Nat.cast_zero, List.length_map,
        List.length_drop] <;>
      omega
  · intro d hd k hk
    have hsplit := List.take_append_drop
      (if m₂ < 1 then (1 : Int) else m₂).toNat backs
    rw [← hsplit] at hdesc
    have hcross := (List.pairwise_append.1 hdesc).2.2
    exact hcross k hk d hd

/-- C6 witness: with three backups, a maximum of 5 trims nothing without
error; a maximum of 1 deletes exactly the two oldest entries (newest kept)
with no error, identically whether the individual deletions succeed or
all fail. -/
theorem trimBackups_bounds_witness :
    trimBackupsList (fun _ => true)
      (listBackupsLines infoFix "main" backupLinesAsc) 5 = ([], none) ∧
    (trimBackupsList (fun _ => true)
      (listBackupsLines infoFix "main" backupLinesAsc) 1).1 =
      [GitOp.deleteBackup "backup/main/20240102-000000",
       GitOp.deleteBackup "backup/main/20240101-000000"] ∧
    (trimBackupsList (fun _ => true)
      (listBackupsLines infoFix "main" backupLinesAsc) 1).2 = none ∧
    trimBackupsList (fun _ => true)
      (listBackupsLines infoFix "main" backupLinesAsc) 1 =
    trimBackupsList (fun _ => false)
      (listBackupsLines infoFix "main" backupLinesAsc) 1 := by
  have hs : List.Pairwise (fun a b : String => a < b) backupLinesAsc := by
    simp only [String.lt_iff_toList_lt]
    decide
  have h := trimBackups_bounds infoFix (fun _ => true) (fun _ => false)
    "main" backupLinesAsc 5 1 hs (by decide)
  exact ⟨h.1, (h.2.2.2.1).trans (by decide), h.2.1, h.2.2.1⟩

/-! ## Theorems: save execution -/

/-- When every append succeeds, the gitignore loop performs one append per
path in order and reports no error. -/
theorem addIgnoresLoop_allOk {ok : String → Bool} {l : List String}
    (h : ∀ p ∈ l, ok p = true) :
    addIgnoresLoop ok l = (l.map GitOp.addToGitignore, none) := by
  induction l with
  | nil => rfl
  | cons p rest ih =>
      have hp : ok p = true := h p (List.mem_cons_self p rest)
      have ih' := ih fun q hq => h q (List.mem_cons_of_mem p hq)
      simp [addIgnoresLoop, hp, ih']

/-- When the appends succeed up to `bad` and the append of `bad` fails,
the gitignore loop performs the successful appends plus the failing
attempt, surfaces the error for `bad`, and attempts nothing further. -/
theorem addIgnoresLoop_failAt (ok : String → Bool) (pre post : List String)
    (bad : String) (hpre : ∀ p ∈ pre, ok p = true) (hbad : ok bad = false) :
    addIgnoresLoop ok (pre ++ bad :: post) =
      ((pre ++ [bad]).map GitOp.addToGitignore,
       some ("failed to add " ++ bad ++ " to .gitignore")) := by
  induction pre with
  | nil => simp [addIgnoresLoop, hbad]
  | cons p rest ih =>
      have hp : ok p = true := hpre p (List.mem_cons_self p rest)
      have ih' := ih fun q hq => hpre q (List.mem_cons_of_mem p hq)
      simp [addIgnoresLoop, hp, ih']

/-- Every operation emitted by the gitignore loop is an append of one of
its input paths. -/
theorem addIgnoresLoop_ops {ok : String → Bool} {l : List String} :
    ∀ op ∈ (addIgnoresLoop ok l).1, ∃ p ∈ l, op = GitOp.addToGitignore p := by
  induction l with
  | nil => intro op h; simp [addIgnoresLoop] at h
  | cons p rest ih =>
      intro op h
      by_cases hp : ok p = true
      · simp only [addIgnoresLoop, hp, if_true, List.mem_cons] at h
        rcases h with rfl | h
        · exact ⟨p, List.mem_cons_self p rest, rfl⟩
        · obtain ⟨q, hq, rfl⟩ := ih op h
          exact ⟨q, List.mem_cons_of_mem p hq, rfl⟩
      · rw [Bool.not_eq_true] at hp
        simp only [addIgnoresLoop, hp, Bool.false_eq_true, if_false,
          List.mem_singleton] at h
        subst h
        exact ⟨p, List.mem_cons_self p rest, rfl⟩

/-- Membership in the Save-marked path list. -/
theorem mem_toSavePaths {q : String} {files : List SaveFileItem} :
    q ∈ toSavePaths files ↔
      ∃ f ∈ files, f.Action = FileAction.Save ∧ f.Change.Path = q := by
  simp only [toSavePaths, List.mem_filterMap]
  constructor
  · rintro ⟨f, hf, hfq⟩
    by_cases hA : f.Action = FileAction.Save
    · rw [if_pos hA] at hfq
      exact ⟨f, hf, hA, Option.some.inj hfq⟩
    · rw [if_neg hA] at hfq
      cases hfq
  · rintro ⟨f, hf, hA, rfl⟩
    exact ⟨f, hf, by rw [if_pos hA]⟩

/-- Membership in the Revert-marked path list. -/
theorem mem_toRevertPaths {q : String} {files : List SaveFileItem} :
    q ∈ toRevertPaths files ↔
      ∃ f ∈ files, f.Action = FileAction.Revert ∧ f.Change.Path = q := by
  simp only [toRevertPaths, List.mem_filterMap]
  constructor
  · rintro ⟨f, hf, hfq⟩
    by_cases hA : f.Action = FileAction.Revert
    · rw [if_pos hA] at hfq
      exact ⟨f, hf, hA, Option.some.inj hfq⟩
    · rw [if_neg hA] at hfq
      cases hfq
  · rintro ⟨f, hf, hA, rfl⟩
    exact ⟨f, hf, by rw [if_pos hA]⟩

/-- Membership in the Ignore-marked path list. -/
theorem mem_toIgnorePaths {q : String} {files : List SaveFileItem} :
    q ∈ toIgnorePaths files ↔
      ∃ f ∈ files, f.Action = FileAction.Ignore ∧ f.Change.Path = q := by
  simp only [toIgnorePaths, List.mem_filterMap]
  constructor
  · rintro ⟨f, hf, hfq⟩
    by_cases hA : f.Action = FileAction.Ignore
    · rw [if_pos hA] at hfq
      exact ⟨f, hf, hA, Option.some.inj hfq⟩
    · rw [if_neg hA] at hfq
      cases hfq
  · rintro ⟨f, hf, hA, rfl⟩
    exact ⟨f, hf, by rw [if_pos hA]⟩

/-- When the revert succeeds and every ignore append succeeds, the trace
of `doSave` is exactly: the revert call (when any file is Revert-marked),
then one append per Ignore-marked path in order, then — only when some
file is Save-marked — the staging call followed by the commit attempt
(the staging call alone when staging fails). -/
theorem doSave_trace_decomp {env : SaveEnv} {message : String}
    {files : List SaveFileItem}
    (hrev : env.revertOk = true)
    (hig : ∀ q ∈ toIgnorePaths files, env.ignoreOk q = true) :
    (doSave env message files).1 =
      revertTraceOf files ++
      (toIgnorePaths files).map GitOp.addToGitignore ++
      (if toSavePaths files = [] then []
       else if env.addOk = false then [GitOp.addFiles (stagedOf files)]
       else [GitOp.addFiles (stagedOf files), GitOp.commit message]) := by
  have hcond : ¬(toRevertPaths files ≠ [] ∧ env.revertOk = false) := by
    rintro ⟨-, hfalse⟩
    rw [hrev] at hfalse
    cases hfalse
  by_cases hR : toRevertPaths files = [] <;>
    by_cases hS : toSavePaths files = [] <;>
      by_cases hA : env.addOk = false <;>
        by_cases hC : env.commitOk = false <;>
          simp [doSave, hcond, addIgnoresLoop_allOk hig, revertTraceOf,
            stagedOf, hR, hS, hA, hC, hrev]

/-- Every operation in a `doSave` trace is the revert call, an append of
an Ignore-marked path, or — only when some file is Save-marked — the
staging call or the commit. -/
theorem doSave_ops {env : SaveEnv} {message : String}
    {files : List SaveFileItem} :
    ∀ op ∈ (doSave env message files).1,
      op = GitOp.revertFiles (toRevertPaths files) ∨
      (∃ q ∈ toIgnorePaths files, op = GitOp.addToGitignore q) ∨
      (toSavePaths files ≠ [] ∧
        (op = GitOp.addFiles (stagedOf files) ∨
         op = GitOp.commit message)) := by
  intro op hop
  simp only [doSave] at hop
  by_cases hrc : toRevertPaths files ≠ [] ∧ env.revertOk = false
  · rw [if_pos hrc] at hop
    simp only [List.mem_singleton] at hop
    exact Or.inl hop
  · rw [if_neg hrc] at hop
    have hrevmem : ∀ o ∈ (if toRevertPaths files = [] then ([] : List GitOp)
        else [GitOp.revertFiles (toRevertPaths files)]),
        o = GitOp.revertFiles (toRevertPaths files) := by
      intro o ho
      split_ifs at ho with h
      · cases ho
      · simpa using ho
    cases hm : (addIgnoresLoop env.ignoreOk (toIgnorePaths files)).2 with
    | some e =>
        rw [hm] at hop
        rcases List.mem_append.1 hop with hop | hop
        · exact Or.inl (hrevmem op hop)
        · exact Or.inr (Or.inl (addIgnoresLoop_ops op hop))
    | none =>
        rw [hm] at hop
        by_cases hS : toSavePaths files = []
        · rw [if_pos hS] at hop
          rcases List.mem_append.1 hop with hop | hop
          · exact Or.inl (hrevmem op hop)
          · exact Or.inr (Or.inl (addIgnoresLoop_ops op hop))
        · rw [if_neg hS] at hop
          by_cases hA : env.addOk = false
          · rw [if_pos hA] at hop
            rcases List.mem_append.1 hop with hop | hop
            · rcases List.mem_append.1 hop with hop | hop
              · exact Or.inl (hrevmem op hop)
              · exact Or.inr (Or.inl (addIgnoresLoop_ops op hop))
            · simp only [List.mem_singleton] at hop
              exact Or.inr (Or.inr ⟨hS, Or.inl hop⟩)
          · rw [if_neg hA] at hop
            by_cases hC : env.commitOk = false
            · rw [if_pos hC] at hop
              rcases List.mem_append.1 hop with hop' | hop'
              · rcases List.mem_append.1 hop' with hop' | hop'
                · exact Or.inl (hrevmem op hop')
                · exact Or.inr (Or.inl (addIgnoresLoop_ops op hop'))
              · rcases List.mem_cons.1 hop' with hop' | hop'
                · exact Or.inr (Or.inr ⟨hS, Or.inl hop'⟩)
                · simp only [List.mem_singleton] at hop'
                  exact Or.inr (Or.inr ⟨hS, Or.inr hop'⟩)
            · rw [if_neg hC] at hop
              rcases List.mem_append.1 hop with hop' | hop'
              · rcases List.mem_append.1 hop' with hop' | hop'
                · exact Or.inl (hrevmem op hop')
                · exact Or.inr (Or.inl (addIgnoresLoop_ops op hop'))
              · rcases List.mem_cons.1 hop' with hop' | hop'
                · exact Or.inr (Or.inr ⟨hS, Or.inl hop'⟩)
                · simp only [List.mem_singleton] at hop'
                  exact Or.inr (Or.inr ⟨hS, Or.inr hop'⟩)

/-- Splitting the ignore-file effect of a concatenated trace. -/
theorem applyIgnoreOps_append (ok : String → Bool) (content : List Char)
    (tr₁ tr₂ : List GitOp) :
    applyIgnoreOps ok content (tr₁ ++ tr₂) =
      applyIgnoreOps ok (applyIgnoreOps ok content tr₁) tr₂ := by
  induction tr₁ generalizing content with
  | nil => rfl
  | cons op rest ih => cases op <;> simp [applyIgnoreOps, ih]

/-- A trace of successful appends writes `"\n" ++ p` for each pattern in
order. -/
theorem applyIgnoreOps_map (ok : String → Bool) (content : List Char)
    (l : List String) (h : ∀ p ∈ l, ok p = true) :
    applyIgnoreOps ok content (l.map GitOp.addToGitignore) =
      appendIgnoreLines content l := by
  induction l generalizing content with
  | nil => rfl
  | cons p rest ih =>
      have hp : ok p = true := h p (List.mem_cons_self p rest)
      have ih' := ih (content ++ '\n' :: p.data)
        fun q hq => h q (List.mem_cons_of_mem p hq)
      simp [applyIgnoreOps, appendIgnoreLines, hp] at ih' ⊢
      exact ih'

/-- A trace containing no gitignore append leaves the file unchanged. -/
theorem applyIgnoreOps_of_no_append (ok : String → Bool) (content : List Char)
    (tr : List GitOp) (h : ∀ op ∈ tr, ∀ q, op ≠ GitOp.addToGitignore q) :
    applyIgnoreOps ok content tr = content := by
  induction tr with
  | nil => rfl
  | cons op rest ih =>
      have hrest := ih fun o ho => h o (List.mem_cons_of_mem op ho)
      cases op with
      | addToGitignore q =>
          exact absurd rfl (h _ (List.mem_cons_self _ _) q)
      | revertFiles l => exact hrest
      | addFiles l => exact hrest
      | commit m => exact hrest
      | createBackup n => exact hrest
      | resetHard n => exact hrest
      | deleteBackup n => exact hrest

/-- The accumulated appends factor through an empty start. -/
theorem appendIgnoreLines_shift (init : List Char) (l : List String) :
    appendIgnoreLines init l = init ++ appendIgnoreLines [] l := by
  induction l generalizing init with
  | nil => simp [appendIgnoreLines]
  | cons q rest ih =>
      have h1 : appendIgnoreLines init (q :: rest) =
          appendIgnoreLines (init ++ '\n' :: q.data) rest := rfl
      have h2 : appendIgnoreLines [] (q :: rest) =
          appendIgnoreLines ('\n' :: q.data) rest := rfl
      rw [h1, h2, ih (init ++ '\n' :: q.data), ih ('\n' :: q.data)]
      simp [List.append_assoc]

/-- Every appended pattern occurs as a full line of the resulting file:
preceded by a newline and followed by the end of the file or the next
newline. -/
theorem isLineOf_appendIgnoreLines {p : String} {l : List String}
    (init : List Char) (hp : p ∈ l) :
    isLineOf p (appendIgnoreLines init l) := by
  induction l generalizing init with
  | nil => cases hp
  | cons q rest ih =>
      rcases List.mem_cons.1 hp with rfl | hp'
      · refine ⟨init, appendIgnoreLines [] rest, ?_, ?_⟩
        · have hstep : appendIgnoreLines init (p :: rest) =
              appendIgnoreLines (init ++ '\n' :: p.data) rest := rfl
          rw [hstep, appendIgnoreLines_shift (init ++ '\n' :: p.data) rest]
          simp [List.append_assoc]
        · cases rest with
          | nil => exact Or.inl rfl
          | cons r rs =>
              refine Or.inr ⟨r.data ++ appendIgnoreLines [] rs, ?_⟩
              have hstep : appendIgnoreLines [] (r :: rs) =
                  appendIgnoreLines ('\n' :: r.data) rs := rfl
              rw [hstep, appendIgnoreLines_shift ('\n' :: r.data) rs]
              simp
      · have hstep : appendIgnoreLines init (q :: rest) =
            appendIgnoreLines (init ++ '\n' :: q.data) rest := rfl
        rw [hstep]
        exact ih (init ++ '\n' :: q.data) hp'

/-- A list not containing a string reports `contains = false`. -/
theorem string_contains_false {p : String} {l : List String} (h : p ∉ l) :
    l.contains p = false := by
  by_contra hc
  rw [Bool.not_eq_false] at hc
  obtain ⟨a', ha', hb⟩ := List.contains_iff_exists_mem_beq.1 hc
  exact h (by rwa [eq_of_beq hb])

/-- C2 (counterexample): when the changed file `.gitignore` itself is
marked SkipOnce while another file is marked Ignore and a third is marked
Save, the staging step's path list contains the SkipOnce-marked path
`.gitignore`, so a SkipOnce-marked path appears in one of the three
execution steps. -/
theorem save_skiponce_staged_counterexample :
    filesSkipGitignore =
      [⟨⟨"modified", ".gitignore"⟩, FileAction.IgnoreOnce⟩,
       ⟨⟨"modified", "a"⟩, FileAction.Ignore⟩,
       ⟨⟨"modified", "b"⟩, FileAction.Save⟩] ∧
    (doSave saveEnvAllOk "m" filesSkipGitignore).1 =
      [GitOp.addToGitignore "a", GitOp.addFiles ["b", ".gitignore"],
       GitOp.commit "m"] ∧
    ((doSave saveEnvAllOk "m" filesSkipGitignore).1.any
      fun op => op.touches ".gitignore") = true := by
  exact ⟨rfl, by decide, by decide⟩

/-- C2 (amended): under a successful environment the `doSave` trace is
exactly the revert call (when any Revert-marked path exists), then one
ignore-file append per Ignore-marked path in order, then — only when some
file is Save-marked — one staging call of the Save-marked paths plus the
ignore file itself when any Ignore action was applied, followed by one
commit.  When no file is Save-marked, no staging call and no commit occurs
under any environment.  A path all of whose marks are SkipOnce and which
is not the ignore file itself appears in no operation of the trace, for
any environment.  When an ignore append fails, the trace stops right after
the failing append — the revert call, the successful appends and the
failing attempt — and the first append error is surfaced. -/
theorem save_execution_order
    (env env₂ env₄ env₃ : SaveEnv) (message message₂ message₃ : String)
    (files files₂ files₃ : List SaveFileItem) (p : String)
    (pre post : List String) (bad : String)
    (hrev : env.revertOk = true)
    (hig : ∀ q ∈ toIgnorePaths files, env.ignoreOk q = true)
    (hadd : env.addOk = true)
    (hsk : ∀ f ∈ files, f.Change.Path = p → f.Action = FileAction.IgnoreOnce)
    (hpgi : p ≠ ".gitignore")
    (hns : toSavePaths files₂ = [])
    (hsplit : toIgnorePaths files₃ = pre ++ bad :: post)
    (hpre : ∀ q ∈ pre, env₃.ignoreOk q = true)
    (hbad : env₃.ignoreOk bad = false)
    (hrev₃ : env₃.revertOk = true) :
    (doSave env message files).1 =
      revertTraceOf files ++
      (toIgnorePaths files).map GitOp.addToGitignore ++
      (if toSavePaths files = [] then []
       else [GitOp.addFiles (stagedOf files), GitOp.commit message]) ∧
    (∀ op ∈ (doSave env₄ message files).1, op.touches p = false) ∧
    (∀ op ∈ (doSave env₂ message₂ files₂).1,
      op.isAddFiles = false ∧ op.isCommit = false) ∧
    (doSave env₃ message₃ files₃).1 =
      revertTraceOf files₃ ++ (pre ++ [bad]).map GitOp.addToGitignore ∧
    (doSave env₃ message₃ files₃).2.Err =
      some ("failed to add " ++ bad ++ " to .gitignore") := by
  have hpS : p ∉ toSavePaths files := by
    intro hmem
    obtain ⟨f, hf, hA, hP⟩ := mem_toSavePaths.1 hmem
    rw [hsk f hf hP] at hA
    cases hA
  have hpR : p ∉ toRevertPaths files := by
    intro hmem
    obtain ⟨f, hf, hA, hP⟩ := mem_toRevertPaths.1 hmem
    rw [hsk f hf hP] at hA
    cases hA
  have hpI : p ∉ toIgnorePaths files := by
    intro hmem
    obtain ⟨f, hf, hA, hP⟩ := mem_toIgnorePaths.1 hmem
    rw [hsk f hf hP] at hA
    cases hA
  have hpStaged : p ∉ stagedOf files := by
    intro hmem
    rcases List.mem_append.1 hmem with h | h
    · exact hpS h
    · split_ifs at h
      · cases h
      · simp only [List.mem_singleton] at h
        exact hpgi h
  refine ⟨?_, ?_, ?_, ?_, ?_⟩
  · rw [doSave_trace_decomp hrev hig]
    split_ifs with h1 h2
    · rfl
    · simp [hadd] at h2
    · rfl
  · intro op hop
    rcases doSave_ops op hop with hop' | ⟨q, hq, hop'⟩ | ⟨-, hop' | hop'⟩
    · subst hop'
      simp only [GitOp.touches]
      exact string_contains_false hpR
    · subst hop'
      simp only [GitOp.touches]
      have : q ≠ p := fun h => hpI (h ▸ hq)
      simp [this]
    · subst hop'
      simp only [GitOp.touches]
      exact string_contains_false hpStaged
    · subst hop'
      rfl
  · intro op hop
    rcases doSave_ops op hop with hop' | ⟨q, hq, hop'⟩ | ⟨hne, -⟩
    · subst hop'
      exact ⟨rfl, rfl⟩
    · subst hop'
      exact ⟨rfl, rfl⟩
    · exact absurd hns hne
  · have hcond : ¬(toRevertPaths files₃ ≠ [] ∧ env₃.revertOk = false) := by
      rintro ⟨-, hfalse⟩
      rw [hrev₃] at hfalse
      cases hfalse
    have hloop := addIgnoresLoop_failAt env₃.ignoreOk pre post bad hpre hbad
    rw [← hsplit] at hloop
    simp only [doSave, hcond, if_false, hloop]
    split_ifs with h1 <;> simp [revertTraceOf, h1]
  · have hcond : ¬(toRevertPaths files₃ ≠ [] ∧ env₃.revertOk = false) := by
      rintro ⟨-, hfalse⟩
      rw [hrev₃] at hfalse
      cases hfalse
    have hloop := addIgnoresLoop_failAt env₃.ignoreOk pre post bad hpre hbad
    rw [← hsplit] at hloop
    simp [doSave, hcond, hloop]

/-- C2 witness: a concrete save with one file per action executes revert,
then the ignore append, then staging (Save-marked paths plus the ignore
file) and the commit, in that order; a concrete save whose second ignore
append fails stops right after the failing append and surfaces its
error. -/
theorem save_execution_order_witness :
    (doSave saveEnvAllOk "m" filesMixed).1 =
      [GitOp.revertFiles ["b"], GitOp.addToGitignore "c",
       GitOp.addFiles ["a", ".gitignore"], GitOp.commit "m"] ∧
    (doSave saveEnvBadC "m" filesIgnoreBad).1 =
      [GitOp.addToGitignore "x1", GitOp.addToGitignore "c"] ∧
    (doSave saveEnvBadC "m" filesIgnoreBad).2.Err =
      some "failed to add c to .gitignore" := by
  have h := save_execution_order saveEnvAllOk saveEnvAllOk saveEnvAllOk
    saveEnvBadC "m" "x" "m" filesMixed filesRevertOnly filesIgnoreBad "d"
    ["x1"] [] "c" rfl (by decide) rfl (by decide) (by decide) (by decide)
    (by decide) (by decide) (by decide) rfl
  exact ⟨h.1.trans (by decide), h.2.2.2.1.trans (by decide), h.2.2.2.2⟩

/-- C4 (counterexample): executing a save whose only file is marked Ignore
succeeds and appends the path to the ignore file, but performs no staging
call and no commit at all — the ignore file is not included in any
stage/commit step of that save. -/
theorem save_ignore_file_not_staged_counterexample :
    (doSave saveEnvAllOk "m" filesIgnoreOnly).1 =
      [GitOp.addToGitignore "secret.txt"] ∧
    (doSave saveEnvAllOk "m" filesIgnoreOnly).2.Err = none ∧
    ((doSave saveEnvAllOk "m" filesIgnoreOnly).1.all
      fun op => !op.isAddFiles && !op.isCommit) = true := by decide

/-- C4 (amended): in a save execution whose revert and ignore appends
succeed, the ignore file ends as the initial contents with `"\n" ++ path`
appended for each Ignore-marked path in order; each Ignore-marked path
(containing no newline) occurs verbatim as a full line of the resulting
file; and when at least one file is marked Save, the staging call of that
same execution includes the ignore file `.gitignore` in its path list. -/
theorem save_ignore_appends
    (env : SaveEnv) (message : String) (files : List SaveFileItem)
    (init : List Char) (p : String)
    (hrev : env.revertOk = true)
    (hig : ∀ q ∈ toIgnorePaths files, env.ignoreOk q = true)
    (hp : p ∈ toIgnorePaths files)
    (hnl : '\n' ∉ p.data)
    (hsave : toSavePaths files ≠ []) :
    applyIgnoreOps env.ignoreOk init (doSave env message files).1 =
      appendIgnoreLines init (toIgnorePaths files) ∧
    isLineOf p (appendIgnoreLines init (toIgnorePaths files)) ∧
    GitOp.addFiles (stagedOf files) ∈ (doSave env message files).1 ∧
    ".gitignore" ∈ stagedOf files := by
  have hIne : toIgnorePaths files ≠ [] := by
    intro h
    rw [h] at hp
    cases hp
  refine ⟨?_, isLineOf_appendIgnoreLines init hp, ?_, ?_⟩
  · rw [doSave_trace_decomp hrev hig, applyIgnoreOps_append,
      applyIgnoreOps_append]
    rw [applyIgnoreOps_of_no_append env.ignoreOk init (revertTraceOf files)
      ?hrevops]
    case hrevops =>
      intro o ho q
      unfold revertTraceOf at ho
      split_ifs at ho
      · cases ho
      · simp only [List.mem_singleton] at ho
        subst ho
        intro hcontra
        cases hcontra
    rw [applyIgnoreOps_map env.ignoreOk init (toIgnorePaths files) hig]
    refine applyIgnoreOps_of_no_append env.ignoreOk _ _ ?_
    intro o ho q
    split_ifs at ho
    · cases ho
    · simp only [List.mem_singleton] at ho
      subst ho
      intro hcontra
      cases hcontra
    · rcases List.mem_cons.1 ho with ho' | ho'
      · subst ho'
        intro hcontra
        cases hcontra
      · simp only [List.mem_singleton] at ho'
        subst ho'
        intro hcontra
        cases hcontra
  · rw [doSave_trace_decomp hrev hig]
    refine List.mem_append.2 (Or.inr ?_)
    rw [if_neg hsave]
    split_ifs with hA
    · exact List.mem_singleton.2 rfl
    · exact List.mem_cons_self _ _
  · unfold stagedOf
    refine List.mem_append.2 (Or.inr ?_)
    rw [if_neg hIne]
    exact List.mem_singleton.2 rfl

/-- C4 witness: in a concrete save with one file per action, the ignore
file grows from `base` to `base\nc`, the Ignore-marked path `c` is a full
line of the result, and the staging call includes `.gitignore`. -/
theorem save_ignore_appends_witness :
    applyIgnoreOps saveEnvAllOk.ignoreOk "base".data
      (doSave saveEnvAllOk "m" filesMixed).1 = "base\nc".data ∧
    isLineOf "c" (appendIgnoreLines "base".data (toIgnorePaths filesMixed)) ∧
    GitOp.addFiles (stagedOf filesMixed) ∈
      (doSave saveEnvAllOk "m" filesMixed).1 ∧
    ".gitignore" ∈ stagedOf filesMixed := by
  have h := save_ignore_appends saveEnvAllOk "m" filesMixed "base".data "c"
    rfl (by decide) (by decide) (by decide) (by decide)
  exact ⟨h.1.trans (by decide), h.2.1, h.2.2.1, h.2.2.2⟩

end Smooth
